import Mathlib

/-!
# Verification of the Student_detector face-matching core

A shallow embedding of the repository's own logic (the gallery store, the
embedding matcher, the per-frame processor, the main loop driver and the
FPS helper) together with theorems settling the specification's claims.

Modelling conventions:
* Python floats are modelled as exact rationals `ℚ`; the Euclidean distance
  `np.linalg.norm` is the exact real square root of the rational sum of
  squared coordinate differences.
* Python code that can raise is modelled in `Except PyErr`: float division
  by zero raises `ZeroDivisionError`, and list indexing out of bounds
  raises `IndexError`.
* External capabilities (the InsightFace detector, `cv2.imread`, the
  camera, the window) are parameters: the detector's per-image output is a
  list of `Face` records, a camera read is a boolean outcome, and so on.
-/

namespace StudentDetector

/-- A Python exception that the modelled code can raise. -/
inductive PyErr where
  | zeroDivision
  | indexError
  deriving DecidableEq, Repr

/-- `RecognitionResult` from `app/models/face_recognizer.py`: a name together
with a confidence score.  The confidence is a real number (the source stores a
Python float). -/
structure RecognitionResult where
  name : String
  confidence : ℝ

/-- Sum of squared coordinate differences of two embeddings (the square of
`np.linalg.norm(x - y)`).  Vectors of equal dimension are zipped pointwise;
dimension mismatch is out of scope (the source would raise in `np.stack`). -/
def dist2 (x y : List ℚ) : ℚ :=
  ((x.zip y).map (fun p => (p.1 - p.2) ^ 2)).sum

/-- Euclidean (L2) distance between two embeddings, `np.linalg.norm(x - y)`:
the exact square root of `dist2`. -/
noncomputable def euclDist (x y : List ℚ) : ℝ :=
  Real.sqrt ((dist2 x y : ℚ) : ℝ)

/-- The per-row norms `np.linalg.norm(encodings_array - embedding, axis=1)`:
the distance from each stored encoding to the query. -/
noncomputable def distancesTo (encodings : List (List ℚ)) (q : List ℚ) : List ℝ :=
  encodings.map (fun e => euclDist e q)

/-- `np.argmin`: the index of the first occurrence of the minimum of a list
(`0` on the empty list, where NumPy would raise). -/
def argminIdx {β : Type} [LinearOrder β] : List β → ℕ
  | [] => 0
  | x :: xs => if xs.getD (argminIdx xs) x < x then argminIdx xs + 1 else 0

theorem argminIdx_spec {β : Type} [LinearOrder β] (d : β) (l : List β) :
    (∀ j, j < l.length → l.getD (argminIdx l) d ≤ l.getD j d) ∧
    (∀ j, j < argminIdx l → l.getD (argminIdx l) d < l.getD j d) ∧
    (l ≠ [] → argminIdx l < l.length) := by
  induction l with
  | nil =>
    refine ⟨fun j hj => absurd hj (by simp), fun j hj => absurd hj (by simp [argminIdx]), ?_⟩
    intro h; exact absurd rfl h
  | cons x xs ih =>
    obtain ⟨ihle, ihfirst, ihlt⟩ := ih
    by_cases hxs : xs = []
    · subst hxs
      simp only [argminIdx, List.getD_nil, lt_irrefl, if_false]
      refine ⟨?_, ?_, ?_⟩
      · intro j hj
        have hj0 : j = 0 := by simpa using Nat.lt_one_iff.mp (by simpa using hj)
        subst hj0; exact le_refl _
      · intro j hj; exact absurd hj (Nat.not_lt_zero j)
      · intro _; simp
    · have hlen : argminIdx xs < xs.length := ihlt hxs
      have hgetD : ∀ d' : β, xs.getD (argminIdx xs) d' = xs.getD (argminIdx xs) d := by
        intro d'
        rw [List.getD_eq_getElem xs d' hlen, List.getD_eq_getElem xs d hlen]
      show _ ∧ _ ∧ _
      rw [argminIdx]
      by_cases hcond : xs.getD (argminIdx xs) x < x
      · rw [if_pos hcond]
        have hmx : xs.getD (argminIdx xs) d < x := by rw [← hgetD x]; exact hcond
        refine ⟨?_, ?_, ?_⟩
        · intro j hj
          cases j with
          | zero => simpa using le_of_lt hmx
          | succ j' =>
            simp only [List.getD_cons_succ]
            exact ihle j' (by simpa using hj)
        · intro j hj
          cases j with
          | zero => simpa using hmx
          | succ j' =>
            simp only [List.getD_cons_succ]
            exact ihfirst j' (by omega)
        · intro _; simp only [List.length_cons]; omega
      · rw [if_neg hcond]
        have hxm : x ≤ xs.getD (argminIdx xs) d := by
          rw [← hgetD x]; exact le_of_not_lt hcond
        refine ⟨?_, ?_, ?_⟩
        · intro j hj
          cases j with
          | zero => simp
          | succ j' =>
            simp only [List.getD_cons_zero, List.getD_cons_succ]
            exact le_trans hxm (ihle j' (by simpa using hj))
        · intro j hj; exact absurd hj (Nat.not_lt_zero j)
        · intro _; simp

/-- `InsightFaceService._match_embedding`: match a query embedding against the
stored gallery (`_names`, `_encodings`) with threshold `tolerance`.
Empty gallery short-circuits to `Unknown`/`0.0`.  Otherwise the first index of
the minimum distance is taken (`np.argmin`); if the best distance is within
the tolerance, `confidence = max(0.0, min(1.0, 1.0 - best_distance /
tolerance))` is computed (Python float division raises `ZeroDivisionError`
when `tolerance` is zero) and the name at the best index is looked up
(raising `IndexError` when out of bounds). -/
noncomputable def matchEmbedding (names : List String) (encodings : List (List ℚ))
    (tolerance : ℚ) (q : List ℚ) : Except PyErr RecognitionResult :=
  if encodings = [] then .ok ⟨"Unknown", 0⟩
  else
    let distances := distancesTo encodings q
    let bestIndex := argminIdx distances
    let bestDistance := distances.getD bestIndex 0
    if bestDistance ≤ (tolerance : ℝ) then
      if tolerance = 0 then .error .zeroDivision
      else
        match names.get? bestIndex with
        | none => .error .indexError
        | some nm => .ok ⟨nm, max 0 (min 1 (1 - bestDistance / (tolerance : ℝ)))⟩
    else .ok ⟨"Unknown", 0⟩

/-- The body of the per-encoding loop of `SimpleFaceRecognizer.recognize`
(`app/models/face_recognizer.py`): `face_recognition.face_distance` is the
same row-wise L2 norm, followed by the same argmin / threshold / clamp
computation as `_match_embedding`. -/
noncomputable def recognizeOne (storedEncodings : List (List ℚ)) (storedNames : List String)
    (tolerance : ℚ) (enc : List ℚ) : Except PyErr RecognitionResult :=
  let distances := distancesTo storedEncodings enc
  let bestIndex := argminIdx distances
  let bestDistance := distances.getD bestIndex 0
  if bestDistance ≤ (tolerance : ℝ) then
    if tolerance = 0 then .error .zeroDivision
    else
      match storedNames.get? bestIndex with
      | none => .error .indexError
      | some nm => .ok ⟨nm, max 0 (min 1 (1 - bestDistance / (tolerance : ℝ)))⟩
  else .ok ⟨"Unknown", 0⟩

/-- The accumulation loop of `SimpleFaceRecognizer.recognize`: one result per
face encoding, propagating the first raised exception. -/
noncomputable def recognizeLoop (storedEncodings : List (List ℚ)) (storedNames : List String)
    (tolerance : ℚ) : List (List ℚ) → Except PyErr (List RecognitionResult)
  | [] => .ok []
  | enc :: rest =>
    match recognizeOne storedEncodings storedNames tolerance enc with
    | .error e => .error e
    | .ok r =>
      match recognizeLoop storedEncodings storedNames tolerance rest with
      | .error e => .error e
      | .ok rs => .ok (r :: rs)

/-- `SimpleFaceRecognizer.recognize`: with an empty stored gallery every face
location gets `Unknown`/`0.0`; otherwise each computed face encoding (an
external capability's output, passed in as `encs`) is matched and the result
list is padded with `Unknown`/`0.0` up to the number of face locations. -/
noncomputable def recognize (storedEncodings : List (List ℚ)) (storedNames : List String)
    (tolerance : ℚ) (faceLocations : List (ℤ × ℤ × ℤ × ℤ)) (encs : List (List ℚ)) :
    Except PyErr (List RecognitionResult) :=
  if storedEncodings = [] then
    .ok (faceLocations.map fun _ => ⟨"Unknown", 0⟩)
  else
    match recognizeLoop storedEncodings storedNames tolerance encs with
    | .error e => .error e
    | .ok results =>
      .ok (if results.length < faceLocations.length then
             results ++ List.replicate (faceLocations.length - results.length) ⟨"Unknown", 0⟩
           else results)

/-- One face as reported by the external InsightFace detector
(`self._app.get`): a bounding box `(x1, y1, x2, y2)` in (float) pixel
coordinates together with the face's embedding vector. -/
structure Face where
  x1 : ℚ
  y1 : ℚ
  x2 : ℚ
  y2 : ℚ
  embedding : List ℚ
  deriving DecidableEq

/-- Truncation toward zero: NumPy's `astype(int)` on a float. -/
def truncQ (q : ℚ) : ℤ :=
  if 0 ≤ q then ⌊q⌋ else ⌈q⌉

/-- The box conversion in `InsightFaceService.analyze`: `bbox.astype(int)`
giving `(x1, y1, x2, y2)`, re-ordered to `(top, right, bottom, left) =
(y1, x2, y2, x1)`. -/
def boxTRBL (f : Face) : ℤ × ℤ × ℤ × ℤ :=
  (truncQ f.y1, truncQ f.x2, truncQ f.y2, truncQ f.x1)

/-- The `_area` key of `InsightFaceService._compute_embedding_for_image`:
`(x2 - x1) * (y2 - y1)` of a face's bounding box. -/
def faceArea (f : Face) : ℚ :=
  (f.x2 - f.x1) * (f.y2 - f.y1)

/-- Python's `max(faces, key=_area)` on a nonempty list: the first face of
maximum area (a later face replaces the current best only when strictly
larger). -/
def largestFace (f : Face) (fs : List Face) : Face :=
  fs.foldl (fun best g => if faceArea best < faceArea g then g else best) f

/-- `InsightFaceService._compute_embedding_for_image` applied to the faces the
external detector finds on one image: `none` when no face was found,
otherwise the embedding of the largest face. -/
def computeEmbeddingForImage (faces : List Face) : Option (List ℚ) :=
  match faces with
  | [] => none
  | f :: fs => some (largestFace f fs).embedding

/-- One directory entry under `known_faces_dir` as `_load_known_faces`
iterates it: its name, whether it is a subdirectory, and for each `*.jpg`
file inside it the result of `cv2.imread` followed by the external detector —
`none` models an unreadable image, `some faces` the detector's output on a
readable one.  `Img` is the opaque image type. -/
structure DirEntry (Img : Type) where
  is_dir : Bool
  name : String
  jpgs : List (Option Img)

/-- The inner image loop of `InsightFaceService._load_known_faces` for one
person directory: unreadable images and images with no detected face are
skipped, otherwise the embedding and the directory name are appended to the
two accumulator lists (exactly the source's two lock-step `append` calls). -/
def loadImages {Img : Type} (detect : Img → List Face) (name : String) :
    List (Option Img) → List (List ℚ) → List String → List (List ℚ) × List String
  | [], encodings, names => (encodings, names)
  | oimg :: rest, encodings, names =>
    match oimg with
    | none => loadImages detect name rest encodings names
    | some img =>
      match computeEmbeddingForImage (detect img) with
      | none => loadImages detect name rest encodings names
      | some e => loadImages detect name rest (encodings ++ [e]) (names ++ [name])

/-- The outer directory loop of `_load_known_faces`: non-directories are
skipped, each subdirectory contributes its images' embeddings under its own
name. -/
def loadDirs {Img : Type} (detect : Img → List Face) :
    List (DirEntry Img) → List (List ℚ) × List String → List (List ℚ) × List String
  | [], acc => acc
  | d :: rest, acc =>
    if d.is_dir then
      loadDirs detect rest (loadImages detect d.name d.jpgs acc.1 acc.2)
    else
      loadDirs detect rest acc

/-- `InsightFaceService._load_known_faces`: when the gallery directory does
not exist the method returns at once, leaving both stored lists empty;
otherwise the directory entries are scanned as above.  Returns the final
`(_encodings, _names)` pair. -/
def loadKnownFaces {Img : Type} (detect : Img → List Face) (dirExists : Bool)
    (entries : List (DirEntry Img)) : List (List ℚ) × List String :=
  if dirExists then loadDirs detect entries ([], []) else ([], [])

/-- `InsightFaceRecognizedFace`: combined detection + recognition result for a
single face. -/
structure InsightFaceRecognizedFace where
  box : ℤ × ℤ × ℤ × ℤ
  result : RecognitionResult

/-- `VideoOverlayFace` (`app/views/video_view.py`): the data the view needs to
draw one face. -/
structure VideoOverlayFace where
  box : ℤ × ℤ × ℤ × ℤ
  label : String
  confidence : ℝ

/-- The per-face loop of `InsightFaceService.analyze`, applied to the face
list the external detector reports for the frame: each face's bbox is
converted and its embedding matched; an exception from `_match_embedding`
propagates out of the loop. -/
noncomputable def analyze (names : List String) (encodings : List (List ℚ)) (tolerance : ℚ) :
    List Face → Except PyErr (List InsightFaceRecognizedFace)
  | [] => .ok []
  | f :: fs =>
    match matchEmbedding names encodings tolerance f.embedding with
    | .error e => .error e
    | .ok recog =>
      match analyze names encodings tolerance fs with
      | .error e => .error e
      | .ok rest => .ok (⟨boxTRBL f, recog⟩ :: rest)

/-- `FaceController.process_frame`: one `VideoOverlayFace` per analyzed face,
copying box, label and confidence. -/
noncomputable def processFrame (names : List String) (encodings : List (List ℚ))
    (tolerance : ℚ) (faces : List Face) : Except PyErr (List VideoOverlayFace) :=
  match analyze names encodings tolerance faces with
  | .error e => .error e
  | .ok results => .ok (results.map fun g => ⟨g.box, g.result.name, g.result.confidence⟩)

/-- The externally determined outcome of one iteration of the main loop in
`app/main.py` (`run`): the camera read fails; or it succeeds and the
view's `tick()` afterwards reports whether to continue (`frame true`
continues, `frame false` is the quit signal); or a `KeyboardInterrupt`
arrives during the iteration; or some other exception is raised (a fatal
error). -/
inductive LoopInput where
  | frameFail
  | frame (cont : Bool)
  | interrupt
  | fatalError
  deriving DecidableEq, Repr

/-- An observable event of `run`'s main loop and shutdown path: a camera
read with its outcome, the warning log on a failed read, processing and
rendering of a frame, the two shutdown-path log lines, and the two resource
teardown calls of the `finally` block (`main_view.close()` and
`camera_controller.shutdown()`). -/
inductive Ev where
  | frameRead (ok : Bool)
  | warnLog
  | process
  | render
  | quitLog
  | interruptLog
  | shutdownLog
  | viewClose
  | cameraRelease
  deriving DecidableEq, Repr

/-- The trace of the `finally` block of `run`: log "Shutting down", then
`main_view.close()`, then `camera_controller.shutdown()` — in the source's
order. -/
def shutdownEvents : List Ev :=
  [Ev.shutdownLog, Ev.viewClose, Ev.cameraRelease]

/-- The event trace of `run`'s `try/except/finally` main loop on a script of
per-iteration outcomes.  A failed read logs a warning and continues; a
successful read processes and renders, then breaks (logging "User requested
shutdown") when `tick()` returns false; a `KeyboardInterrupt` is caught and
logged; any other exception leaves the loop uncaught.  On every exit path the
`finally` block appends `shutdownEvents`.  A script that ends without an exit
models a still-running loop: no shutdown is observed. -/
def runLoop : List LoopInput → List Ev
  | [] => []
  | .frameFail :: rest => Ev.frameRead false :: Ev.warnLog :: runLoop rest
  | .frame cont :: rest =>
    Ev.frameRead true :: Ev.process :: Ev.render ::
      (if cont then runLoop rest else Ev.quitLog :: shutdownEvents)
  | .interrupt :: _ => Ev.interruptLog :: shutdownEvents
  | .fatalError :: _ => shutdownEvents

/-- Whether a script makes the main loop exit (quit signal, fatal error or
external interrupt) within its inputs. -/
def exitsRun : List LoopInput → Bool
  | [] => false
  | .frameFail :: rest => exitsRun rest
  | .frame cont :: rest => if cont then exitsRun rest else true
  | .interrupt :: _ => true
  | .fatalError :: _ => true

/-- `measure_fps` (`app/utils/helpers.py`) unrolled over a list of
`perf_counter` samples, threading `last_time`: each sample yields
`(delta, fps)` with `delta = current_time - last_time` and
`fps = 1.0 / delta if delta > 0 else 0.0`. -/
def measureFps (last : ℚ) : List ℚ → List (ℚ × ℚ)
  | [] => []
  | t :: ts => (t - last, if 0 < t - last then 1 / (t - last) else 0) :: measureFps t ts

/-- Evaluation helper: the Euclidean distance of two concrete rational
vectors whose squared distance is a perfect rational square. -/
theorem euclDist_eval (x y : List ℚ) (b : ℚ) (hb : 0 ≤ b) (h : dist2 x y = b ^ 2) :
    euclDist x y = (b : ℝ) := by
  rw [euclDist, h]
  push_cast
  exact Real.sqrt_sq (by exact_mod_cast hb)

/-- The length of the distances row equals the number of stored encodings. -/
theorem distancesTo_length (encodings : List (List ℚ)) (q : List ℚ) :
    (distancesTo encodings q).length = encodings.length := by
  simp [distancesTo]

/-- Reading the distances row at an in-bounds index gives the distance from
that stored encoding to the query. -/
theorem distancesTo_getD (encodings : List (List ℚ)) (q : List ℚ) (i : ℕ)
    (h : i < encodings.length) (d : ℝ) :
    (distancesTo encodings q).getD i d = euclDist (encodings.getD i []) q := by
  have h' : i < (distancesTo encodings q).length := by
    rw [distancesTo_length]; exact h
  rw [List.getD_eq_getElem _ _ h', List.getD_eq_getElem _ _ h]
  simp [distancesTo]

/-- The clamp `max 0 (min 1 x)` always lands in `[0, 1]`. -/
theorem clamp_mem_unit (x : ℝ) : 0 ≤ max 0 (min 1 x) ∧ max 0 (min 1 x) ≤ 1 :=
  ⟨le_max_left 0 _, max_le zero_le_one (min_le_left 1 x)⟩

/-- C2: for every threshold and query embedding, matching against an empty
gallery returns `Unknown` with confidence `0.0`, in both the InsightFace
matcher and `SimpleFaceRecognizer.recognize` (which maps every face location
to `Unknown`/`0.0` when no encodings are stored). -/
theorem match_empty_gallery (names : List String) (tolerance : ℚ) (q : List ℚ)
    (faceLocations : List (ℤ × ℤ × ℤ × ℤ)) (encs : List (List ℚ)) :
    matchEmbedding names [] tolerance q = .ok ⟨"Unknown", 0⟩ ∧
    recognize [] names tolerance faceLocations encs =
      .ok (faceLocations.map fun _ => ⟨"Unknown", 0⟩) := by
  constructor
  · simp [matchEmbedding]
  · simp [recognize]

/-- C7: when the gallery directory does not exist, loading leaves the store
empty (no exception is modelled because the source returns normally), and
every subsequent match against the loaded store yields `Unknown`/`0.0`. -/
theorem load_missing_dir {Img : Type} (detect : Img → List Face)
    (entries : List (DirEntry Img)) (tolerance : ℚ) (q : List ℚ) :
    loadKnownFaces detect false entries = ([], []) ∧
    matchEmbedding (loadKnownFaces detect false entries).2
      (loadKnownFaces detect false entries).1 tolerance q = .ok ⟨"Unknown", 0⟩ := by
  constructor
  · simp [loadKnownFaces]
  · simp [loadKnownFaces, matchEmbedding]

/-- C9: in every iteration the yielded delta is the wall-clock difference
since the previous iteration's sample (or since the generator's start for the
first iteration), and the frame-rate estimate is the reciprocal of that delta
when the delta is positive and `0.0` otherwise — in particular `0.0` when the
delta is zero, so the guarded division never divides by zero. -/
theorem measureFps_guarded (last : ℚ) (ts : List ℚ) (i : ℕ) (hi : i < ts.length) :
    ((measureFps last ts).getD i (0, 0)).1 =
      ts.getD i 0 - (if i = 0 then last else ts.getD (i - 1) 0) ∧
    ((measureFps last ts).getD i (0, 0)).2 =
      (if 0 < ((measureFps last ts).getD i (0, 0)).1
       then 1 / ((measureFps last ts).getD i (0, 0)).1 else 0) := by
  induction ts generalizing last i with
  | nil => simp at hi
  | cons t ts ih =>
    cases i with
    | zero => simp [measureFps]
    | succ i' =>
      have hi' : i' < ts.length := by simpa using hi
      have h := ih t i' hi'
      cases i' with
      | zero => simpa [measureFps] using h
      | succ j => simpa [measureFps] using h

theorem measureFps_guarded_witness :
    measureFps 0 [0, 1/2] = [(0, 0), (1/2, 2)] ∧
    (((measureFps 0 [0, 1/2]).getD 1 (0, 0)).1 =
       [0, 1/2].getD 1 0 - (if (1 : ℕ) = 0 then (0 : ℚ) else [0, 1/2].getD 0 0) ∧
     ((measureFps 0 [0, 1/2]).getD 1 (0, 0)).2 =
       (if 0 < ((measureFps 0 [0, 1/2]).getD 1 (0, 0)).1
        then 1 / ((measureFps 0 [0, 1/2]).getD 1 (0, 0)).1 else 0)) :=
  ⟨by norm_num [measureFps], measureFps_guarded 0 [0, 1/2] 1 (by decide)⟩

/-- C6 counterexample: on a quit signal in the first iteration the observed
trace runs the `finally` block with `main_view.close()` *before*
`camera_controller.shutdown()`, so the camera release does **not** precede
the window close as the claim states: the trace has no subsequence
`[cameraRelease, viewClose]`. -/
theorem run_quit_trace_close_before_release :
    runLoop [LoopInput.frame false] =
      [Ev.frameRead true, Ev.process, Ev.render, Ev.quitLog,
       Ev.shutdownLog, Ev.viewClose, Ev.cameraRelease] ∧
    ¬ [Ev.cameraRelease, Ev.viewClose].Sublist (runLoop [LoopInput.frame false]) := by
  decide

/-- C6 (amended): on every exit from the main loop — quit signal, fatal
error, or external interrupt — the trace ends with the rendering surface
being closed and then the camera being released, each exactly once and in
that order (window close before camera release), with neither event occurring
earlier. -/
theorem runLoop_shutdown_once_ordered (s : List LoopInput) (h : exitsRun s = true) :
    ∃ pre, runLoop s = pre ++ [Ev.viewClose, Ev.cameraRelease] ∧
      Ev.viewClose ∉ pre ∧ Ev.cameraRelease ∉ pre := by
  induction s with
  | nil => simp [exitsRun] at h
  | cons i rest ih =>
    cases i with
    | frameFail =>
      have h' : exitsRun rest = true := by simpa [exitsRun] using h
      obtain ⟨pre, hpre, hv, hc⟩ := ih h'
      refine ⟨Ev.frameRead false :: Ev.warnLog :: pre, ?_, ?_, ?_⟩
      · simp [runLoop, hpre]
      · simp [hv]
      · simp [hc]
    | frame cont =>
      cases cont with
      | true =>
        have h' : exitsRun rest = true := by simpa [exitsRun] using h
        obtain ⟨pre, hpre, hv, hc⟩ := ih h'
        refine ⟨Ev.frameRead true :: Ev.process :: Ev.render :: pre, ?_, ?_, ?_⟩
        · simp [runLoop, hpre]
        · simp [hv]
        · simp [hc]
      | false =>
        refine ⟨[Ev.frameRead true, Ev.process, Ev.render, Ev.quitLog, Ev.shutdownLog],
          ?_, by decide, by decide⟩
        simp [runLoop, shutdownEvents]
    | interrupt =>
      exact ⟨[Ev.interruptLog, Ev.shutdownLog], by simp [runLoop, shutdownEvents], by decide,
        by decide⟩
    | fatalError =>
      exact ⟨[Ev.shutdownLog], by simp [runLoop, shutdownEvents], by decide, by decide⟩

theorem runLoop_shutdown_once_ordered_witness :
    ∃ pre, runLoop [LoopInput.frame true, LoopInput.interrupt] =
      pre ++ [Ev.viewClose, Ev.cameraRelease] ∧
      Ev.viewClose ∉ pre ∧ Ev.cameraRelease ∉ pre :=
  runLoop_shutdown_once_ordered [LoopInput.frame true, LoopInput.interrupt] (by decide)

/-- A non-exiting prefix of the script contributes its iterations' events in
front of the rest of the run. -/
theorem runLoop_append (pre s : List LoopInput) (h : exitsRun pre = false) :
    runLoop (pre ++ s) = runLoop pre ++ runLoop s := by
  induction pre with
  | nil => simp [runLoop]
  | cons i rest ih =>
    cases i with
    | frameFail =>
      have h' : exitsRun rest = false := by simpa [exitsRun] using h
      simp [runLoop, ih h']
    | frame cont =>
      cases cont with
      | true =>
        have h' : exitsRun rest = false := by simpa [exitsRun] using h
        simp [runLoop, ih h']
      | false => simp [exitsRun] at h
    | interrupt => simp [exitsRun] at h
    | fatalError => simp [exitsRun] at h

theorem exitsRun_append (pre s : List LoopInput) (h : exitsRun pre = false) :
    exitsRun (pre ++ s) = exitsRun s := by
  induction pre with
  | nil => simp
  | cons i rest ih =>
    cases i with
    | frameFail =>
      have h' : exitsRun rest = false := by simpa [exitsRun] using h
      simp [exitsRun, ih h']
    | frame cont =>
      cases cont with
      | true =>
        have h' : exitsRun rest = false := by simpa [exitsRun] using h
        simp [exitsRun, ih h']
      | false => simp [exitsRun] at h
    | interrupt => simp [exitsRun] at h
    | fatalError => simp [exitsRun] at h

/-- C8: a failed frame read in any reachable iteration contributes exactly a
read event and the warning log — no processing, no rendering, no shutdown —
and the loop goes on to run the remaining script; in particular the failure
itself never makes the run exit. -/
theorem frameFail_logs_and_continues (pre rest : List LoopInput)
    (h : exitsRun pre = false) :
    runLoop (pre ++ LoopInput.frameFail :: rest) =
      runLoop pre ++ Ev.frameRead false :: Ev.warnLog :: runLoop rest ∧
    exitsRun (pre ++ [LoopInput.frameFail]) = false := by
  constructor
  · rw [runLoop_append pre _ h]
    simp [runLoop]
  · rw [exitsRun_append pre _ h]
    simp [exitsRun]

/-- C8 witness, the spec's scenario: the camera fails on iteration 3 of 5;
the trace logs the warning there and the loop proceeds through iterations 4
and 5 without terminating. -/
theorem frameFail_logs_and_continues_witness :
    (runLoop ([LoopInput.frame true, LoopInput.frame true] ++
        LoopInput.frameFail :: [LoopInput.frame true, LoopInput.frame true]) =
      runLoop [LoopInput.frame true, LoopInput.frame true] ++
        Ev.frameRead false :: Ev.warnLog ::
          runLoop [LoopInput.frame true, LoopInput.frame true] ∧
     exitsRun ([LoopInput.frame true, LoopInput.frame true] ++ [LoopInput.frameFail]) = false) ∧
    runLoop ([LoopInput.frame true, LoopInput.frame true] ++
        LoopInput.frameFail :: [LoopInput.frame true, LoopInput.frame true]) =
      [Ev.frameRead true, Ev.process, Ev.render, Ev.frameRead true, Ev.process, Ev.render,
       Ev.frameRead false, Ev.warnLog,
       Ev.frameRead true, Ev.process, Ev.render, Ev.frameRead true, Ev.process, Ev.render] :=
  ⟨frameFail_logs_and_continues [LoopInput.frame true, LoopInput.frame true]
      [LoopInput.frame true, LoopInput.frame true] (by decide),
   by decide⟩

/-- The distances row of a non-empty gallery is non-empty. -/
theorem distancesTo_ne_nil (encodings : List (List ℚ)) (q : List ℚ)
    (hne : encodings ≠ []) : distancesTo encodings q ≠ [] := by
  simp [distancesTo, hne]

/-- The argmin of the distances row of a non-empty gallery is a valid gallery
index. -/
theorem argmin_distances_lt (encodings : List (List ℚ)) (q : List ℚ)
    (hne : encodings ≠ []) :
    argminIdx (distancesTo encodings q) < encodings.length := by
  have h := (argminIdx_spec (0 : ℝ) (distancesTo encodings q)).2.2
    (distancesTo_ne_nil encodings q hne)
  rwa [distancesTo_length] at h

/-- C1 counterexample: with gallery `[("Alice", [0])]`, threshold `0` and a
query at distance `0`, the branch `best_distance <= tolerance` is taken and
the confidence computation divides by the zero tolerance, so `Match` raises
`ZeroDivisionError` instead of returning any `(label, confidence)` result. -/
theorem matchEmbedding_zero_tolerance_raises :
    matchEmbedding ["Alice"] [[0]] 0 [0] = .error .zeroDivision := by
  have hd : euclDist [(0 : ℚ)] [(0 : ℚ)] = ((0 : ℚ) : ℝ) :=
    euclDist_eval _ _ 0 le_rfl (by norm_num [dist2])
  simp [matchEmbedding, distancesTo, argminIdx, hd]

/-- C1 (amended): for every non-empty gallery, `Match` selects an entry at
minimum Euclidean distance `d` from the query; when `d <= t` it computes
`confidence = clamp(1 - d/t, 0, 1)` and returns that entry's label — except
that with `t = 0` the confidence division raises `ZeroDivisionError` (and an
out-of-range label index would raise `IndexError`); when `d > t` it returns
`Unknown` with confidence `0.0`. -/
theorem matchEmbedding_min_characterization (names : List String)
    (encodings : List (List ℚ)) (tolerance : ℚ) (q : List ℚ)
    (hne : encodings ≠ []) :
    ∃ i, i < encodings.length ∧
      (∀ j, j < encodings.length →
        euclDist (encodings.getD i []) q ≤ euclDist (encodings.getD j []) q) ∧
      matchEmbedding names encodings tolerance q =
        (if euclDist (encodings.getD i []) q ≤ (tolerance : ℝ) then
          if tolerance = 0 then .error .zeroDivision
          else
            match names.get? i with
            | none => .error .indexError
            | some nm =>
              .ok ⟨nm, max 0 (min 1
                    (1 - euclDist (encodings.getD i []) q / (tolerance : ℝ)))⟩
        else .ok ⟨"Unknown", 0⟩) := by
  have hlt := argmin_distances_lt encodings q hne
  refine ⟨argminIdx (distancesTo encodings q), hlt, ?_, ?_⟩
  · intro j hj
    have h := (argminIdx_spec (0 : ℝ) (distancesTo encodings q)).1 j
      (by rwa [distancesTo_length])
    rwa [distancesTo_getD _ _ _ hlt, distancesTo_getD _ _ _ hj] at h
  · simp only [matchEmbedding, if_neg hne]
    rw [distancesTo_getD _ _ _ hlt]

/-- C1 witness, the spec's scenario: one gallery entry `("Alice", [0])`,
threshold `4/5 = 0.8`; the query `[3/10]` at distance `0.3` yields
`("Alice", 0.625)` and the query `[9/10]` at distance `0.9` yields
`("Unknown", 0.0)`. -/
theorem matchEmbedding_scenario_witness :
    matchEmbedding ["Alice"] [[0]] (4/5) [3/10] = .ok ⟨"Alice", 5/8⟩ ∧
    matchEmbedding ["Alice"] [[0]] (4/5) [9/10] = .ok ⟨"Unknown", 0⟩ := by
  constructor
  · obtain ⟨i, hi, _, heq⟩ :=
      matchEmbedding_min_characterization ["Alice"] [[0]] (4/5) [3/10] (by simp)
    have hi0 : i = 0 := by simp at hi; omega
    subst hi0
    have hd : euclDist ([[(0 : ℚ)]].getD 0 []) [3/10] = ((3/10 : ℚ) : ℝ) := by
      simpa using euclDist_eval [(0 : ℚ)] [3/10] (3/10) (by norm_num) (by norm_num [dist2])
    rw [heq, hd, if_pos (by norm_num), if_neg (by norm_num)]
    have hv : (1 : ℝ) - ((3/10 : ℚ) : ℝ) / ((4/5 : ℚ) : ℝ) = 5/8 := by push_cast; norm_num
    simp only [List.get?, hv]
    rw [min_eq_right (by norm_num : (5/8 : ℝ) ≤ 1),
      max_eq_right (by norm_num : (0 : ℝ) ≤ 5/8)]
  · obtain ⟨i, hi, _, heq⟩ :=
      matchEmbedding_min_characterization ["Alice"] [[0]] (4/5) [9/10] (by simp)
    have hi0 : i = 0 := by simp at hi; omega
    subst hi0
    have hd : euclDist ([[(0 : ℚ)]].getD 0 []) [9/10] = ((9/10 : ℚ) : ℝ) := by
      simpa using euclDist_eval [(0 : ℚ)] [9/10] (9/10) (by norm_num) (by norm_num [dist2])
    rw [heq, hd, if_neg (by push_cast; norm_num)]

/-- C5: for every non-empty gallery, the selected index is the *first* index
attaining the minimum distance (its distance is strictly below every earlier
entry's distance, and at most every entry's distance), and whenever the
match succeeds the returned label is that first-encountered entry's name —
ties are broken in stored order, and `matchEmbedding` is a pure function, so
the outcome is deterministic for identical inputs and a fixed load order. -/
theorem matchEmbedding_first_min (names : List String) (encodings : List (List ℚ))
    (tolerance : ℚ) (q : List ℚ) (hne : encodings ≠ []) :
    ∃ i, i < encodings.length ∧
      (∀ j, j < encodings.length →
        euclDist (encodings.getD i []) q ≤ euclDist (encodings.getD j []) q) ∧
      (∀ j, j < i →
        euclDist (encodings.getD i []) q < euclDist (encodings.getD j []) q) ∧
      (euclDist (encodings.getD i []) q ≤ (tolerance : ℝ) → tolerance ≠ 0 →
        i < names.length →
        matchEmbedding names encodings tolerance q =
          .ok ⟨names.getD i "",
               max 0 (min 1
                 (1 - euclDist (encodings.getD i []) q / (tolerance : ℝ)))⟩) := by
  have hlt := argmin_distances_lt encodings q hne
  refine ⟨argminIdx (distancesTo encodings q), hlt, ?_, ?_, ?_⟩
  · intro j hj
    have h := (argminIdx_spec (0 : ℝ) (distancesTo encodings q)).1 j
      (by rwa [distancesTo_length])
    rwa [distancesTo_getD _ _ _ hlt, distancesTo_getD _ _ _ hj] at h
  · intro j hj
    have hjlen : j < encodings.length := lt_trans hj hlt
    have h := (argminIdx_spec (0 : ℝ) (distancesTo encodings q)).2.1 j hj
    rwa [distancesTo_getD _ _ _ hlt, distancesTo_getD _ _ _ hjlen] at h
  · intro hle ht0 hnames
    simp only [matchEmbedding, if_neg hne]
    rw [distancesTo_getD _ _ _ hlt, if_pos hle, if_neg ht0,
      List.get?_eq_get hnames, List.getD_eq_getElem _ _ hnames]
    rfl

/-- C5 witness: a two-entry gallery `[("A", [0]), ("B", [0])]` where both
entries tie at distance `0` from the query `[0]`; with threshold `1` the
match returns the first entry's label `"A"` (with confidence `1`). -/
theorem matchEmbedding_first_min_witness :
    matchEmbedding ["A", "B"] [[0], [0]] 1 [0] = .ok ⟨"A", 1⟩ := by
  obtain ⟨i, hi, _, hfirst, himp⟩ :=
    matchEmbedding_first_min ["A", "B"] [[0], [0]] 1 [0] (by simp)
  have hd : ∀ j, euclDist ([[(0 : ℚ)], [0]].getD j []) [0] = ((0 : ℚ) : ℝ) := by
    intro j
    have h0 : euclDist [(0 : ℚ)] [(0 : ℚ)] = ((0 : ℚ) : ℝ) :=
      euclDist_eval _ _ 0 le_rfl (by norm_num [dist2])
    have he : euclDist [] [(0 : ℚ)] = ((0 : ℚ) : ℝ) := by
      simp [euclDist, dist2]
    match j with
    | 0 => simpa using h0
    | 1 => simpa using h0
    | (n + 2) => simpa using he
  have hi0 : i = 0 := by
    rcases Nat.lt_or_ge i 1 with h1 | h1
    · omega
    · exfalso
      have := hfirst 0 (by omega)
      rw [hd i, hd 0] at this
      exact lt_irrefl _ this
  subst hi0
  have h := himp (by rw [hd 0]; norm_num) (by norm_num) (by norm_num)
  rw [h, hd 0]
  have hv : (1 : ℝ) - ((0 : ℚ) : ℝ) / ((1 : ℚ) : ℝ) = 1 := by push_cast; norm_num
  rw [hv, min_self, max_eq_right (by norm_num : (0 : ℝ) ≤ 1)]
  rfl

/-- Every result the InsightFace matcher actually returns has its confidence
clamped into `[0, 1]`. -/
theorem matchEmbedding_ok_confidence (names : List String) (encodings : List (List ℚ))
    (tolerance : ℚ) (q : List ℚ) (r : RecognitionResult)
    (h : matchEmbedding names encodings tolerance q = .ok r) :
    0 ≤ r.confidence ∧ r.confidence ≤ 1 := by
  simp only [matchEmbedding] at h
  split at h
  · injection h with h'
    rw [← h']
    exact ⟨le_refl 0, zero_le_one⟩
  · split at h
    · split at h
      · exact absurd h (by simp)
      · split at h
        · exact absurd h (by simp)
        · injection h with h'
          rw [← h']
          exact clamp_mem_unit _
    · injection h with h'
      rw [← h']
      exact ⟨le_refl 0, zero_le_one⟩

/-- Every result `SimpleFaceRecognizer`'s per-encoding match returns has its
confidence in `[0, 1]`. -/
theorem recognizeOne_ok_confidence (storedEncodings : List (List ℚ))
    (storedNames : List String) (tolerance : ℚ) (enc : List ℚ) (r : RecognitionResult)
    (h : recognizeOne storedEncodings storedNames tolerance enc = .ok r) :
    0 ≤ r.confidence ∧ r.confidence ≤ 1 := by
  simp only [recognizeOne] at h
  split at h
  · split at h
    · exact absurd h (by simp)
    · split at h
      · exact absurd h (by simp)
      · injection h with h'
        rw [← h']
        exact clamp_mem_unit _
  · injection h with h'
    rw [← h']
    exact ⟨le_refl 0, zero_le_one⟩

/-- Every member of a successful `recognize` accumulation loop has its
confidence in `[0, 1]`. -/
theorem recognizeLoop_ok_confidence (storedEncodings : List (List ℚ))
    (storedNames : List String) (tolerance : ℚ) (encs : List (List ℚ))
    (rs : List RecognitionResult)
    (h : recognizeLoop storedEncodings storedNames tolerance encs = .ok rs) :
    ∀ r' ∈ rs, 0 ≤ r'.confidence ∧ r'.confidence ≤ 1 := by
  induction encs generalizing rs with
  | nil =>
    simp only [recognizeLoop] at h
    injection h with h'
    rw [← h']
    intro r' hr'
    exact absurd hr' (List.not_mem_nil r')
  | cons enc rest ih =>
    simp only [recognizeLoop] at h
    split at h
    · exact absurd h (by simp)
    · split at h
      · exact absurd h (by simp)
      · injection h with h'
        rw [← h']
        intro r' hr'
        rcases List.mem_cons.mp hr' with hr' | hr'
        · subst hr'
          exact recognizeOne_ok_confidence _ _ _ _ _ (by assumption)
        · exact ih _ (by assumption) r' hr'

/-- C4 counterexample: with gallery `[("Bob", [1])]`, threshold `0` and the
query `[1]` (distance `0`), `Match` raises `ZeroDivisionError` in the
confidence computation, so no in-range confidence is returned for this
input even though the claim quantifies over "threshold equal to zero". -/
theorem matchEmbedding_zero_tolerance_no_result :
    matchEmbedding ["Bob"] [[1]] 0 [1] = .error .zeroDivision := by
  have hd : euclDist [(1 : ℚ)] [(1 : ℚ)] = ((0 : ℚ) : ℝ) :=
    euclDist_eval _ _ 0 le_rfl (by norm_num [dist2])
  simp [matchEmbedding, distancesTo, argminIdx, hd]

/-- C4 (amended): whenever `Match` returns a result — every input with a
nonzero threshold, and every input whose best distance exceeds the threshold
— the confidence is within `[0, 1]` inclusive, in both the InsightFace
matcher and `SimpleFaceRecognizer.recognize`; when the threshold is exactly
zero and the best distance is zero, the code raises `ZeroDivisionError`
instead of returning. -/
theorem confidence_always_unit (names : List String) (encodings : List (List ℚ))
    (tolerance : ℚ) (q : List ℚ) (r : RecognitionResult)
    (storedEncodings : List (List ℚ)) (storedNames : List String) (tol2 : ℚ)
    (locs : List (ℤ × ℤ × ℤ × ℤ)) (encs : List (List ℚ)) (rs : List RecognitionResult)
    (h : matchEmbedding names encodings tolerance q = .ok r)
    (h2 : recognize storedEncodings storedNames tol2 locs encs = .ok rs) :
    (0 ≤ r.confidence ∧ r.confidence ≤ 1) ∧
    ∀ r' ∈ rs, 0 ≤ r'.confidence ∧ r'.confidence ≤ 1 := by
  refine ⟨matchEmbedding_ok_confidence _ _ _ _ _ h, ?_⟩
  simp only [recognize] at h2
  split at h2
  · injection h2 with h'
    rw [← h']
    intro r' hr'
    rcases List.mem_map.mp hr' with ⟨_, _, rfl⟩
    exact ⟨le_refl 0, zero_le_one⟩
  · split at h2
    · exact absurd h2 (by simp)
    · injection h2 with h'
      rw [← h']
      intro r' hr'
      split at hr'
      · rcases List.mem_append.mp hr' with hr' | hr'
        · exact recognizeLoop_ok_confidence _ _ _ _ _ (by assumption) r' hr'
        · rw [List.eq_of_mem_replicate hr']
          exact ⟨le_refl 0, zero_le_one⟩
      · exact recognizeLoop_ok_confidence _ _ _ _ _ (by assumption) r' hr'

/-- C4 witness: at the concrete inputs (empty galleries, threshold `0`) both
functions return, and the returned confidences are in `[0, 1]`. -/
theorem confidence_always_unit_witness :
    ((0 : ℝ) ≤ (⟨"Unknown", 0⟩ : RecognitionResult).confidence ∧
      (⟨"Unknown", 0⟩ : RecognitionResult).confidence ≤ 1) ∧
    ∀ r' ∈ ([] : List RecognitionResult), 0 ≤ r'.confidence ∧ r'.confidence ≤ 1 :=
  confidence_always_unit [] [] 0 [] ⟨"Unknown", 0⟩ [] [] 0 [] [] []
    (by simp [matchEmbedding]) (by simp [recognize])

/-- With a nonzero threshold and at least as many stored names as stored
encodings, the matcher always returns (neither exception is reachable). -/
theorem matchEmbedding_returns (names : List String) (encodings : List (List ℚ))
    (tolerance : ℚ) (q : List ℚ) (ht : tolerance ≠ 0)
    (hlen : encodings.length ≤ names.length) :
    ∃ r, matchEmbedding names encodings tolerance q = .ok r := by
  by_cases hne : encodings = []
  · subst hne
    exact ⟨⟨"Unknown", 0⟩, by simp [matchEmbedding]⟩
  · have hlt := argmin_distances_lt encodings q hne
    have hn : argminIdx (distancesTo encodings q) < names.length := lt_of_lt_of_le hlt hlen
    simp only [matchEmbedding, if_neg hne, if_neg ht]
    rw [List.get?_eq_get hn]
    split
    · exact ⟨_, rfl⟩
    · exact ⟨_, rfl⟩

/-- A successful `analyze` produces one combined record per detected face, in
detector order, with the face's converted box and its match result. -/
theorem analyze_ok_spec (names : List String) (encodings : List (List ℚ))
    (tolerance : ℚ) (faces : List Face) (l : List InsightFaceRecognizedFace)
    (h : analyze names encodings tolerance faces = .ok l) :
    l.length = faces.length ∧
    ∀ i, i < faces.length →
      ∃ r, matchEmbedding names encodings tolerance
          ((faces.getD i ⟨0, 0, 0, 0, []⟩).embedding) = .ok r ∧
        l.getD i ⟨(0, 0, 0, 0), "", 0⟩ =
          ⟨boxTRBL (faces.getD i ⟨0, 0, 0, 0, []⟩), r⟩ := by
  induction faces generalizing l with
  | nil =>
    simp only [analyze] at h
    injection h with h'
    rw [← h']
    exact ⟨rfl, fun i hi => absurd hi (Nat.not_lt_zero i)⟩
  | cons f fs ih =>
    simp only [analyze] at h
    split at h
    · exact absurd h (by simp)
    · split at h
      · exact absurd h (by simp)
      · injection h with h'
        rw [← h']
        obtain ⟨hlen, hel⟩ := ih _ (by assumption)
        refine ⟨by simp [hlen], ?_⟩
        intro i hi
        cases i with
        | zero => exact ⟨_, by assumption, rfl⟩
        | succ i' =>
          have hi' : i' < fs.length := by simpa using hi
          simpa using hel i' hi'

/-- With a nonzero threshold and enough stored names, `analyze` succeeds on
every face list. -/
theorem analyze_returns (names : List String) (encodings : List (List ℚ))
    (tolerance : ℚ) (faces : List Face) (ht : tolerance ≠ 0)
    (hlen : encodings.length ≤ names.length) :
    ∃ l, analyze names encodings tolerance faces = .ok l := by
  induction faces with
  | nil => exact ⟨[], rfl⟩
  | cons f fs ih =>
    obtain ⟨r, hr⟩ := matchEmbedding_returns names encodings tolerance f.embedding ht hlen
    obtain ⟨rest, hrest⟩ := ih
    exact ⟨⟨boxTRBL f, r⟩ :: rest, by simp [analyze, hr, hrest]⟩

/-- C3: whenever the frame processor returns, it returns exactly one
`VideoOverlayFace` per face the detection capability reported for the frame,
in the detector's output order, with each record's box, label and confidence
taken from that face's detection and match result; and it does return for
every frame whenever the threshold is nonzero and the stored name list is at
least as long as the stored encoding list (the gallery-load invariant). -/
theorem processFrame_one_overlay_per_face (names : List String)
    (encodings : List (List ℚ)) (tolerance : ℚ) (faces : List Face) :
    (∀ l, processFrame names encodings tolerance faces = .ok l →
      l.length = faces.length ∧
      ∀ i, i < faces.length →
        ∃ r, matchEmbedding names encodings tolerance
            ((faces.getD i ⟨0, 0, 0, 0, []⟩).embedding) = .ok r ∧
          l.getD i ⟨(0, 0, 0, 0), "", 0⟩ =
            ⟨boxTRBL (faces.getD i ⟨0, 0, 0, 0, []⟩), r.name, r.confidence⟩) ∧
    (tolerance ≠ 0 → encodings.length ≤ names.length →
      ∃ l, processFrame names encodings tolerance faces = .ok l) := by
  constructor
  · intro l h
    simp only [processFrame] at h
    cases ha : analyze names encodings tolerance faces with
    | error e =>
      rw [ha] at h
      exact absurd h (by simp)
    | ok results =>
      rw [ha] at h
      injection h with h'
      rw [← h']
      obtain ⟨hlen, hel⟩ := analyze_ok_spec names encodings tolerance faces results ha
      refine ⟨by simp [hlen], ?_⟩
      intro i hi
      obtain ⟨r, hr, hget⟩ := hel i hi
      refine ⟨r, hr, ?_⟩
      have hires : i < results.length := by rw [hlen]; exact hi
      have himap : i < (results.map
          (fun g => (⟨g.box, g.result.name, g.result.confidence⟩ : VideoOverlayFace))).length := by
        simpa using hires
      rw [List.getD_eq_getElem _ _ himap, List.getElem_map]
      rw [List.getD_eq_getElem _ _ hires] at hget
      rw [hget]
  · intro ht hlen
    obtain ⟨l, hl⟩ := analyze_returns names encodings tolerance faces ht hlen
    exact ⟨l.map (fun g => ⟨g.box, g.result.name, g.result.confidence⟩),
      by simp [processFrame, hl]⟩

/-- C3 witness: a frame on which the detector reports two faces (with an
empty gallery, so both match `Unknown`) yields exactly two overlay records,
in order, and the list length matches the detector's face count. -/
theorem processFrame_one_overlay_per_face_witness :
    processFrame [] [] 1 [⟨0, 0, 1, 1, [0]⟩, ⟨0, 0, 1, 1, [1]⟩] =
      .ok [⟨(0, 1, 1, 0), "Unknown", 0⟩, ⟨(0, 1, 1, 0), "Unknown", 0⟩] ∧
    ([⟨(0, 1, 1, 0), "Unknown", 0⟩, ⟨(0, 1, 1, 0), "Unknown", 0⟩] :
        List VideoOverlayFace).length =
      ([⟨0, 0, 1, 1, [0]⟩, ⟨0, 0, 1, 1, [1]⟩] : List Face).length := by
  have he : processFrame [] [] 1 [⟨0, 0, 1, 1, [0]⟩, ⟨0, 0, 1, 1, [1]⟩] =
      .ok [⟨(0, 1, 1, 0), "Unknown", 0⟩, ⟨(0, 1, 1, 0), "Unknown", 0⟩] := by
    simp [processFrame, analyze, matchEmbedding, boxTRBL, truncQ]
  exact ⟨he, ((processFrame_one_overlay_per_face [] [] 1 _).1 _ he).1⟩

/-- The inner image loop appends to the two stored lists in lock-step: if the
accumulators have equal length going in, they have equal length coming out. -/
theorem loadImages_length {Img : Type} (detect : Img → List Face) (name : String)
    (jpgs : List (Option Img)) (encodings : List (List ℚ)) (names_ : List String)
    (h : encodings.length = names_.length) :
    (loadImages detect name jpgs encodings names_).1.length =
      (loadImages detect name jpgs encodings names_).2.length := by
  induction jpgs generalizing encodings names_ with
  | nil => simpa [loadImages] using h
  | cons o rest ih =>
    cases o with
    | none => simpa [loadImages] using ih encodings names_ h
    | some img =>
      cases hc : computeEmbeddingForImage (detect img) with
      | none => simpa [loadImages, hc] using ih encodings names_ h
      | some e =>
        simpa [loadImages, hc] using
          ih (encodings ++ [e]) (names_ ++ [name]) (by simp [h])

/-- The outer directory loop preserves the equal-length invariant of the two
stored lists. -/
theorem loadDirs_length {Img : Type} (detect : Img → List Face)
    (entries : List (DirEntry Img)) (acc : List (List ℚ) × List String)
    (h : acc.1.length = acc.2.length) :
    (loadDirs detect entries acc).1.length = (loadDirs detect entries acc).2.length := by
  induction entries generalizing acc with
  | nil => simpa [loadDirs] using h
  | cons d rest ih =>
    by_cases hd : d.is_dir
    · simpa [loadDirs, hd] using
        ih (loadImages detect d.name d.jpgs acc.1 acc.2)
          (loadImages_length detect d.name d.jpgs acc.1 acc.2 h)
    · simpa [loadDirs, hd] using ih acc h

/-- C10: after every gallery load the stored encoding and name lists have
equal length (entries are appended pairwise and never removed); hence for a
non-empty loaded gallery the argmin over the distances row is a valid index
into the name list, and a match against the loaded store can never raise
`IndexError`. -/
theorem load_pairwise_and_match_inbounds {Img : Type} (detect : Img → List Face)
    (dirExists : Bool) (entries : List (DirEntry Img)) :
    (loadKnownFaces detect dirExists entries).1.length =
      (loadKnownFaces detect dirExists entries).2.length ∧
    (∀ q, (loadKnownFaces detect dirExists entries).1 ≠ [] →
      argminIdx (distancesTo (loadKnownFaces detect dirExists entries).1 q) <
        (loadKnownFaces detect dirExists entries).2.length) ∧
    (∀ tolerance q,
      matchEmbedding (loadKnownFaces detect dirExists entries).2
        (loadKnownFaces detect dirExists entries).1 tolerance q ≠
      .error .indexError) := by
  have hlen : (loadKnownFaces detect dirExists entries).1.length =
      (loadKnownFaces detect dirExists entries).2.length := by
    rw [loadKnownFaces]
    cases dirExists with
    | true => simpa using loadDirs_length detect entries ([], []) rfl
    | false => rfl
  refine ⟨hlen, ?_, ?_⟩
  · intro q hne
    rw [← hlen]
    exact argmin_distances_lt _ q hne
  · intro tolerance q
    by_cases hne : (loadKnownFaces detect dirExists entries).1 = []
    · simp [matchEmbedding, hne]
    · have hlt : argminIdx (distancesTo (loadKnownFaces detect dirExists entries).1 q) <
          (loadKnownFaces detect dirExists entries).2.length := by
        rw [← hlen]
        exact argmin_distances_lt _ q hne
      simp only [matchEmbedding, if_neg hne]
      rw [List.get?_eq_get hlt]
      split
      · split
        · simp
        · simp
      · simp

/-- C10 witness: a concrete gallery directory with a single person directory
holding one readable image with one detected face loads to one encoding and
one name; the lengths agree, the argmin is in bounds and no `IndexError` is
possible. -/
theorem load_pairwise_and_match_inbounds_witness :
    (loadKnownFaces (fun _ : Unit => [⟨0, 0, 1, 1, [0]⟩]) true
        [⟨true, "Alice", [some ()]⟩]).1.length =
      (loadKnownFaces (fun _ : Unit => [⟨0, 0, 1, 1, [0]⟩]) true
        [⟨true, "Alice", [some ()]⟩]).2.length ∧
    argminIdx (distancesTo
        (loadKnownFaces (fun _ : Unit => [⟨0, 0, 1, 1, [0]⟩]) true
          [⟨true, "Alice", [some ()]⟩]).1 [0]) <
      (loadKnownFaces (fun _ : Unit => [⟨0, 0, 1, 1, [0]⟩]) true
        [⟨true, "Alice", [some ()]⟩]).2.length ∧
    matchEmbedding
        (loadKnownFaces (fun _ : Unit => [⟨0, 0, 1, 1, [0]⟩]) true
          [⟨true, "Alice", [some ()]⟩]).2
        (loadKnownFaces (fun _ : Unit => [⟨0, 0, 1, 1, [0]⟩]) true
          [⟨true, "Alice", [some ()]⟩]).1 1 [0] ≠
      .error .indexError := by
  have h := load_pairwise_and_match_inbounds (fun _ : Unit => [⟨0, 0, 1, 1, [0]⟩]) true
    [⟨true, "Alice", [some ()]⟩]
  refine ⟨h.1, h.2.1 [0] ?_, h.2.2 1 [0]⟩
  simp [loadKnownFaces, loadDirs, loadImages, computeEmbeddingForImage, largestFace]

end StudentDetector
